import Mathlib

/-!
Shallow embedding of `src/plotters/src/data/quartiles.rs`.

The Rust code computes five-number box-plot summaries in `f64` arithmetic.
All inputs the spec reasons about are exact numeric values (integers and
small decimal fractions) on which every operation the code performs
(sorting, linear interpolation with weights that are ratios of small
integers, multiplication by `1.5`) is exact, so we embed the numeric type
as `ℚ`.  Panics (failed `assert!`s and out-of-bounds indexing) are embedded
as `none`; a normal return is `some`.
-/

namespace Plotters

/-- `f64::EPSILON = 2⁻⁵²`, used by the `(pct - hundred).abs() < f64::EPSILON`
test in `percentile_of_sorted`. -/
def f64Epsilon : ℚ := 1 / 2 ^ 52

/-- The `Quartiles` struct: five `f64` fields, embedded as `ℚ`. -/
structure Quartiles where
  lower_fence : ℚ
  lower : ℚ
  median : ℚ
  upper : ℚ
  upper_fence : ℚ
deriving DecidableEq, Repr

/-- The ascending sort the three constructors perform
(`s.sort_unstable_by(|a, b| a.partial_cmp(b).unwrap())`).  On `ℚ` every
pair of values is comparable, so the `unwrap` never panics; any correct
ascending sort of a linear order produces the same list, so we embed it as
insertion sort. -/
def sortList (s : List ℚ) : List ℚ :=
  s.insertionSort (· ≤ ·)

/-- `Quartiles::percentile_of_sorted`: the value at percentile `pct` of the
sorted slice `s`, by linear interpolation.  `none` embeds a panic:
the `assert!(!s.is_empty())`, the two range asserts on `pct`, or an
out-of-bounds index. -/
def percentile_of_sorted (s : List ℚ) (pct : ℚ) : Option ℚ :=
  if s.isEmpty then none
  else if s.length = 1 then s[0]?
  else if ¬ (0 ≤ pct) then none
  else if ¬ (pct ≤ 100) then none
  else if |pct - 100| < f64Epsilon then s[s.length - 1]?
  else
    let length : ℚ := ((s.length - 1 : ℕ) : ℚ)
    let rank := (pct / 100) * length
    let lower_rank := ⌊rank⌋
    let d := rank - lower_rank
    let n := lower_rank.toNat
    match s[n]?, s[n + 1]? with
    | some lo, some hi => some (lo + (hi - lo) * d)
    | _, _ => none

/-- `Quartiles::new` (Policy A): quartiles by `percentile_of_sorted` at
25/50/75, Tukey fences at `±1.5×iqr`. -/
def Quartiles.new (s : List ℚ) : Option Quartiles :=
  let s := sortList s
  match percentile_of_sorted s 25, percentile_of_sorted s 50,
      percentile_of_sorted s 75 with
  | some lower, some median, some upper =>
    let iqr := upper - lower
    let lower_fence := lower - 1.5 * iqr
    let upper_fence := upper + 1.5 * iqr
    some ⟨lower_fence, lower, median, upper, upper_fence⟩
  | _, _, _ => none

/-- The `quartile` closure shared (textually identical) by `Quartiles::real`
and `Quartiles::fair`: rank formula `alpha = p × (len+1) / 4`.  `none`
embeds an out-of-bounds index (only possible on the empty slice).
`k as usize` on a non-negative `f64` truncates, and saturates to `0` on a
negative one, which is exactly `Int.toNat ∘ Int.floor`. -/
def realQuartile (s : List ℚ) (p : ℚ) : Option ℚ :=
  let n : ℚ := ((s.length + 1 : ℕ) : ℚ)
  let alpha := p * n / 4
  let k := ⌊alpha⌋
  let alpha := alpha - k
  let k := k.toNat
  if k = 0 then s[0]?
  else
    let k := k - 1
    if k ≥ s.length - 1 then s[s.length - 1]?
    else
      match s[k]?, s[k + 1]? with
      | some a, some b => some (a + alpha * (b - a))
      | _, _ => none

/-- `Quartiles::real` (Policy B): all five summary values from the
`(len+1)/4` rank formula at `p = 0,1,2,3,4`; the fences are the extrema. -/
def Quartiles.real (s : List ℚ) : Option Quartiles :=
  let t := sortList s
  match realQuartile t 0, realQuartile t 1, realQuartile t 2,
      realQuartile t 3, realQuartile t 4 with
  | some lower_fence, some lower, some median, some upper, some upper_fence =>
    some ⟨lower_fence, lower, median, upper, upper_fence⟩
  | _, _, _, _, _ => none

/-- `Quartiles::fair` (Policy C): quartiles from the `(len+1)/4` rank
formula, Tukey fences clamped to the extrema. -/
def Quartiles.fair (s : List ℚ) : Option Quartiles :=
  let t := sortList s
  match realQuartile t 1, realQuartile t 2, realQuartile t 3,
      realQuartile t 0, realQuartile t 4 with
  | some lower, some median, some upper, some q0, some q4 =>
    let iqr := upper - lower
    let lower_fence := lower - 1.5 * iqr
    let lower_fence := max lower_fence q0
    let upper_fence := upper + 1.5 * iqr
    let upper_fence := min upper_fence q4
    some ⟨lower_fence, lower, median, upper, upper_fence⟩
  | _, _, _, _, _ => none

/-- `Quartiles::values`: the five fields in order
`[lower_fence, lower, median, upper, upper_fence]`.  The Rust accessor
casts each `f64` to `f32`; every value the spec compares against is exactly
representable in `f32`, so the cast is embedded as the identity. -/
def Quartiles.values (q : Quartiles) : List ℚ :=
  [q.lower_fence, q.lower, q.median, q.upper, q.upper_fence]

/-- Specification-side definition (not from the source): the middle element
of a sorted list when its length is odd, and the midpoint of the two middle
elements when its length is even.  Used to state the refinement claim about
the three medians. -/
def midValue (t : List ℚ) : ℚ :=
  if t.length % 2 = 1 then t.getD (t.length / 2) 0
  else (t.getD (t.length / 2 - 1) 0 + t.getD (t.length / 2) 0) / 2

/-! ### Utility lemmas about the sort step -/

lemma sortList_sorted (s : List ℚ) : (sortList s).Sorted (· ≤ ·) :=
  List.sorted_insertionSort _ s

lemma sortList_perm (s : List ℚ) : List.Perm (sortList s) s :=
  List.perm_insertionSort _ s

lemma sortList_length (s : List ℚ) : (sortList s).length = s.length :=
  (sortList_perm s).length_eq

lemma sortList_eq_of_perm {s s' : List ℚ} (h : List.Perm s s') :
    sortList s = sortList s' :=
  List.eq_of_perm_of_sorted
    ((sortList_perm s).trans (h.trans (sortList_perm s').symm))
    (sortList_sorted s) (sortList_sorted s')

lemma sorted_getD_mono {t : List ℚ} (ht : t.Sorted (· ≤ ·)) {i j : ℕ}
    (hij : i ≤ j) (hj : j < t.length) : t.getD i 0 ≤ t.getD j 0 := by
  have hi : i < t.length := lt_of_le_of_lt hij hj
  rw [List.getD_eq_getElem _ _ hi, List.getD_eq_getElem _ _ hj]
  exact ht.rel_get_of_le hij

lemma getD_le_of_mem {t : List ℚ} (ht : t.Sorted (· ≤ ·)) {x : ℚ}
    (hx : x ∈ t) : t.getD 0 0 ≤ x := by
  obtain ⟨i, hi, rfl⟩ := List.mem_iff_getElem.mp hx
  have h0 : (0 : ℕ) < t.length := lt_of_le_of_lt (Nat.zero_le i) hi
  rw [List.getD_eq_getElem _ _ h0]
  exact ht.rel_get_of_le (Nat.zero_le i)

lemma le_getD_last_of_mem {t : List ℚ} (ht : t.Sorted (· ≤ ·)) {x : ℚ}
    (hx : x ∈ t) : x ≤ t.getD (t.length - 1) 0 := by
  obtain ⟨i, hi, rfl⟩ := List.mem_iff_getElem.mp hx
  have hl : t.length - 1 < t.length := by omega
  rw [List.getD_eq_getElem _ _ hl]
  exact ht.rel_get_of_le (by omega : i ≤ t.length - 1)

/-! ### Linear-interpolation bounds -/

lemma interp_lb {a b d : ℚ} (hab : a ≤ b) (hd : 0 ≤ d) :
    a ≤ a + (b - a) * d := by nlinarith

lemma interp_ub {a b d : ℚ} (hab : a ≤ b) (hd : d ≤ 1) :
    a + (b - a) * d ≤ b := by nlinarith

/-! ### Branch lemmas for `percentile_of_sorted` -/

lemma epsilon_pos : (0 : ℚ) < f64Epsilon := by norm_num [f64Epsilon]

lemma lt_100_of_not_near {p : ℚ} (h100 : p ≤ 100)
    (hne : ¬ |p - 100| < f64Epsilon) : p < 100 := by
  rcases lt_or_eq_of_le h100 with h | rfl
  · exact h
  · exact absurd (by simpa using epsilon_pos) hne

lemma percentile_of_sorted_length_one {t : List ℚ} (h : t.length = 1)
    (p : ℚ) : percentile_of_sorted t p = some (t.getD 0 0) := by
  rcases t with _ | ⟨a, t⟩
  · simp at h
  · have ht : t = [] := by simpa using h
    subst ht
    simp [percentile_of_sorted]

lemma percentile_of_sorted_near_100 {t : List ℚ} {p : ℚ}
    (h2 : 2 ≤ t.length) (h0 : 0 ≤ p) (h100 : p ≤ 100)
    (hnear : |p - 100| < f64Epsilon) :
    percentile_of_sorted t p = some (t.getD (t.length - 1) 0) := by
  have hne : ¬ t.isEmpty = true := by
    simp only [List.isEmpty_iff]
    intro h; rw [h] at h2; simp at h2
  have hl1 : ¬ t.length = 1 := by omega
  have hlast : t.length - 1 < t.length := by omega
  rw [percentile_of_sorted, if_neg hne, if_neg hl1,
    if_neg (by push_neg; exact h0), if_neg (by push_neg; exact h100),
    if_pos hnear, List.getElem?_eq_getElem hlast,
    List.getD_eq_getElem _ _ hlast]

lemma percentile_of_sorted_interp {t : List ℚ} {p : ℚ}
    (h2 : 2 ≤ t.length) (h0 : 0 ≤ p) (h100 : p ≤ 100)
    (hne : ¬ |p - 100| < f64Epsilon) {r : ℚ} {n : ℕ}
    (hr : r = (p / 100) * ((t.length - 1 : ℕ) : ℚ))
    (hn : n = (⌊r⌋).toNat) :
    n + 1 < t.length ∧ 0 ≤ r - (n : ℚ) ∧ r - (n : ℚ) < 1 ∧
      percentile_of_sorted t p =
        some (t.getD n 0 + (t.getD (n + 1) 0 - t.getD n 0) * (r - (n : ℚ))) := by
  have hL1 : ((t.length - 1 : ℕ) : ℚ) = (t.length : ℚ) - 1 := by
    rw [Nat.cast_sub (by omega)]; norm_num
  have hLq : (2 : ℚ) ≤ (t.length : ℚ) := by exact_mod_cast h2
  have hr0 : 0 ≤ r := by
    rw [hr, hL1]
    apply mul_nonneg (by positivity)
    linarith
  have hp100 : p < 100 := lt_100_of_not_near h100 hne
  have hrlt : r < (t.length : ℚ) - 1 := by
    rw [hr, hL1]
    have h1 : p / 100 < 1 := (div_lt_one (by norm_num : (0:ℚ) < 100)).mpr hp100
    nlinarith
  have hfl0 : 0 ≤ ⌊r⌋ := Int.floor_nonneg.mpr hr0
  have hnr : (n : ℤ) = ⌊r⌋ := by rw [hn]; exact Int.toNat_of_nonneg hfl0
  have hnq : ((n : ℕ) : ℚ) = ((⌊r⌋ : ℤ) : ℚ) := by exact_mod_cast hnr
  have hfllt : ⌊r⌋ < (t.length : ℤ) - 1 := by
    rw [Int.floor_lt]; push_cast; exact hrlt
  have hn1 : n + 1 < t.length := by omega
  have hd0 : 0 ≤ r - (n : ℚ) := by rw [hnq]; linarith [Int.floor_le r]
  have hd1 : r - (n : ℚ) < 1 := by rw [hnq]; linarith [Int.lt_floor_add_one r]
  refine ⟨hn1, hd0, hd1, ?_⟩
  have hemp : ¬ t.isEmpty = true := by
    simp only [List.isEmpty_iff]
    intro h; rw [h] at h2; simp at h2
  have hl1 : ¬ t.length = 1 := by omega
  have hnlt : n < t.length := by omega
  rw [percentile_of_sorted, if_neg hemp, if_neg hl1,
    if_neg (by push_neg; exact h0), if_neg (by push_neg; exact h100),
    if_neg hne]
  simp only []
  rw [← hr, ← hn]
  rw [List.getElem?_eq_getElem hnlt, List.getElem?_eq_getElem hn1]
  rw [List.getD_eq_getElem _ _ hnlt, List.getD_eq_getElem _ _ hn1]
  simp only [Option.some.injEq]
  rw [hnq]

lemma percentile_of_sorted_isSome_bounds {t : List ℚ}
    (ht : t.Sorted (· ≤ ·)) (hne : t ≠ []) {p : ℚ}
    (h0 : 0 ≤ p) (h100 : p ≤ 100) :
    ∃ v, percentile_of_sorted t p = some v ∧
      t.getD 0 0 ≤ v ∧ v ≤ t.getD (t.length - 1) 0 := by
  have hlen : 0 < t.length := List.length_pos.mpr hne
  by_cases h1 : t.length = 1
  · refine ⟨t.getD 0 0, percentile_of_sorted_length_one h1 p, le_refl _, ?_⟩
    rw [h1]
  · have h2 : 2 ≤ t.length := by omega
    by_cases hnear : |p - 100| < f64Epsilon
    · refine ⟨_, percentile_of_sorted_near_100 h2 h0 h100 hnear, ?_, le_refl _⟩
      exact sorted_getD_mono ht (Nat.zero_le _) (by omega)
    · obtain ⟨hn1, hd0, hd1, heq⟩ :=
        percentile_of_sorted_interp h2 h0 h100 hnear rfl rfl
      have hab := sorted_getD_mono ht
        (by omega : (⌊(p / 100) * ((t.length - 1 : ℕ) : ℚ)⌋).toNat ≤
          (⌊(p / 100) * ((t.length - 1 : ℕ) : ℚ)⌋).toNat + 1) hn1
      refine ⟨_, heq, ?_, ?_⟩
      · exact le_trans (sorted_getD_mono ht (Nat.zero_le _) (by omega))
          (interp_lb hab hd0)
      · exact le_trans (interp_ub hab (le_of_lt hd1))
          (sorted_getD_mono ht (by omega) (by omega))

lemma percentile_of_sorted_mono {t : List ℚ} (ht : t.Sorted (· ≤ ·))
    {p q vp vq : ℚ} (h0 : 0 ≤ p) (hpq : p ≤ q) (h100 : q ≤ 100)
    (hp : percentile_of_sorted t p = some vp)
    (hq : percentile_of_sorted t q = some vq) : vp ≤ vq := by
  have hne : t ≠ [] := by
    rintro rfl
    simp [percentile_of_sorted] at hp
  have hlen : 0 < t.length := List.length_pos.mpr hne
  have hp0q : 0 ≤ q := le_trans h0 hpq
  have hp100 : p ≤ 100 := le_trans hpq h100
  by_cases h1 : t.length = 1
  · rw [percentile_of_sorted_length_one h1 p] at hp
    rw [percentile_of_sorted_length_one h1 q] at hq
    rw [← Option.some.inj hp, ← Option.some.inj hq]
  · have h2 : 2 ≤ t.length := by omega
    by_cases hnearq : |q - 100| < f64Epsilon
    · rw [percentile_of_sorted_near_100 h2 hp0q h100 hnearq] at hq
      obtain ⟨v, hv, _, hvu⟩ :=
        percentile_of_sorted_isSome_bounds ht hne h0 hp100
      rw [hv] at hp
      rw [← Option.some.inj hp, ← Option.some.inj hq]
      exact hvu
    · have hnearp : ¬ |p - 100| < f64Epsilon := by
        intro hp'
        apply hnearq
        rw [abs_sub_lt_iff] at hp' ⊢
        constructor <;> [linarith [hp'.1]; linarith [hp'.2]]
      obtain ⟨hn1p, hd0p, hd1p, heqp⟩ :=
        percentile_of_sorted_interp h2 h0 hp100 hnearp rfl rfl
      obtain ⟨hn1q, hd0q, hd1q, heqq⟩ :=
        percentile_of_sorted_interp h2 hp0q h100 hnearq rfl rfl
      rw [heqp] at hp
      rw [heqq] at hq
      rw [← Option.some.inj hp, ← Option.some.inj hq]
      have hrpq : (p / 100) * ((t.length - 1 : ℕ) : ℚ) ≤
          (q / 100) * ((t.length - 1 : ℕ) : ℚ) := by
        apply mul_le_mul_of_nonneg_right _ (by positivity)
        linarith
      have hnpq : (⌊(p / 100) * ((t.length - 1 : ℕ) : ℚ)⌋).toNat ≤
          (⌊(q / 100) * ((t.length - 1 : ℕ) : ℚ)⌋).toNat :=
        Int.toNat_le_toNat (Int.floor_mono hrpq)
      rcases Nat.lt_or_ge (⌊(p / 100) * ((t.length - 1 : ℕ) : ℚ)⌋).toNat
          (⌊(q / 100) * ((t.length - 1 : ℕ) : ℚ)⌋).toNat with hlt | hge
      · have habp := sorted_getD_mono ht
          (Nat.le_succ (⌊(p / 100) * ((t.length - 1 : ℕ) : ℚ)⌋).toNat) hn1p
        have habq := sorted_getD_mono ht
          (Nat.le_succ (⌊(q / 100) * ((t.length - 1 : ℕ) : ℚ)⌋).toNat) hn1q
        calc t.getD (⌊(p / 100) * ((t.length - 1 : ℕ) : ℚ)⌋).toNat 0 +
              (t.getD ((⌊(p / 100) * ((t.length - 1 : ℕ) : ℚ)⌋).toNat + 1) 0 -
                t.getD (⌊(p / 100) * ((t.length - 1 : ℕ) : ℚ)⌋).toNat 0) *
              ((p / 100) * ((t.length - 1 : ℕ) : ℚ) -
                ((⌊(p / 100) * ((t.length - 1 : ℕ) : ℚ)⌋).toNat : ℚ))
            ≤ t.getD ((⌊(p / 100) * ((t.length - 1 : ℕ) : ℚ)⌋).toNat + 1) 0 :=
              interp_ub habp (le_of_lt hd1p)
          _ ≤ t.getD (⌊(q / 100) * ((t.length - 1 : ℕ) : ℚ)⌋).toNat 0 :=
              sorted_getD_mono ht (by omega) (by omega)
          _ ≤ _ := interp_lb habq hd0q
      · have heqn : (⌊(p / 100) * ((t.length - 1 : ℕ) : ℚ)⌋).toNat =
            (⌊(q / 100) * ((t.length - 1 : ℕ) : ℚ)⌋).toNat := le_antisymm hnpq hge
        rw [heqn]
        have hab := sorted_getD_mono ht
          (Nat.le_succ (⌊(q / 100) * ((t.length - 1 : ℕ) : ℚ)⌋).toNat) hn1q
        have hfr : ((p / 100) * ((t.length - 1 : ℕ) : ℚ) -
              ((⌊(q / 100) * ((t.length - 1 : ℕ) : ℚ)⌋).toNat : ℚ)) ≤
            ((q / 100) * ((t.length - 1 : ℕ) : ℚ) -
              ((⌊(q / 100) * ((t.length - 1 : ℕ) : ℚ)⌋).toNat : ℚ)) := by
          linarith
        nlinarith [hab, hfr]

/-! ### Branch lemmas for `realQuartile` -/

lemma interp_lb' {a b d : ℚ} (hab : a ≤ b) (hd : 0 ≤ d) :
    a ≤ a + d * (b - a) := by nlinarith

lemma interp_ub' {a b d : ℚ} (hab : a ≤ b) (hd : d ≤ 1) :
    a + d * (b - a) ≤ b := by nlinarith

lemma realQuartile_cases {t : List ℚ} {p A : ℚ} {K : ℕ}
    (hA : A = p * ((t.length + 1 : ℕ) : ℚ) / 4)
    (hK : K = (⌊A⌋).toNat) :
    (K = 0 ∧ realQuartile t p = t[0]?) ∨
    (K ≠ 0 ∧ t.length - 1 ≤ K - 1 ∧
      realQuartile t p = t[t.length - 1]?) ∨
    (K ≠ 0 ∧ K - 1 < t.length - 1 ∧
      realQuartile t p =
        some (t.getD (K - 1) 0 + (A - ((⌊A⌋ : ℤ) : ℚ)) *
          (t.getD (K - 1 + 1) 0 - t.getD (K - 1) 0))) := by
  subst hA
  subst hK
  rw [realQuartile]
  simp only []
  by_cases h1 : (⌊p * ((t.length + 1 : ℕ) : ℚ) / 4⌋).toNat = 0
  · exact Or.inl ⟨h1, by rw [if_pos h1]⟩
  · by_cases h2 : t.length - 1 ≤
        (⌊p * ((t.length + 1 : ℕ) : ℚ) / 4⌋).toNat - 1
    · exact Or.inr (Or.inl ⟨h1, h2, by rw [if_neg h1, if_pos h2]⟩)
    · refine Or.inr (Or.inr ⟨h1, by omega, ?_⟩)
      rw [if_neg h1, if_neg h2]
      have hb1 : (⌊p * ((t.length + 1 : ℕ) : ℚ) / 4⌋).toNat - 1 + 1 <
          t.length := by omega
      have hb0 : (⌊p * ((t.length + 1 : ℕ) : ℚ) / 4⌋).toNat - 1 <
          t.length := by omega
      rw [List.getElem?_eq_getElem hb0, List.getElem?_eq_getElem hb1]
      rw [List.getD_eq_getElem _ _ hb0, List.getD_eq_getElem _ _ hb1]

lemma realQuartile_isSome_bounds {t : List ℚ} (ht : t.Sorted (· ≤ ·))
    (hne : t ≠ []) {p : ℚ} (h0 : 0 ≤ p) :
    ∃ v, realQuartile t p = some v ∧
      t.getD 0 0 ≤ v ∧ v ≤ t.getD (t.length - 1) 0 := by
  have hlen : 0 < t.length := List.length_pos.mpr hne
  have hget0 : t[0]? = some (t.getD 0 0) := by
    rw [List.getElem?_eq_getElem hlen, List.getD_eq_getElem _ _ hlen]
  have hll : t.length - 1 < t.length := by omega
  have hgetl : t[t.length - 1]? = some (t.getD (t.length - 1) 0) := by
    rw [List.getElem?_eq_getElem hll, List.getD_eq_getElem _ _ hll]
  have h0l : t.getD 0 0 ≤ t.getD (t.length - 1) 0 :=
    sorted_getD_mono ht (Nat.zero_le _) hll
  rcases realQuartile_cases (t := t) (p := p) rfl rfl with
      ⟨hK0, heq⟩ | ⟨hK0, hcl, heq⟩ | ⟨hK0, hmid, heq⟩
  · exact ⟨_, heq.trans hget0, le_refl _, h0l⟩
  · exact ⟨_, heq.trans hgetl, h0l, le_refl _⟩
  · set A := p * ((t.length + 1 : ℕ) : ℚ) / 4 with hA
    set K := (⌊A⌋).toNat with hK
    have hfr0 : 0 ≤ A - ((⌊A⌋ : ℤ) : ℚ) := by linarith [Int.floor_le A]
    have hfr1 : A - ((⌊A⌋ : ℤ) : ℚ) ≤ 1 := by
      linarith [Int.lt_floor_add_one A]
    have hab : t.getD (K - 1) 0 ≤ t.getD (K - 1 + 1) 0 :=
      sorted_getD_mono ht (Nat.le_succ _) (by omega)
    refine ⟨_, heq, ?_, ?_⟩
    · exact le_trans (sorted_getD_mono ht (Nat.zero_le _) (by omega))
        (interp_lb' hab hfr0)
    · exact le_trans (interp_ub' hab hfr1)
        (sorted_getD_mono ht (by omega) hll)

lemma realQuartile_mono {t : List ℚ} (ht : t.Sorted (· ≤ ·)) (hne : t ≠ [])
    {p q vp vq : ℚ} (h0 : 0 ≤ p) (hpq : p ≤ q)
    (hp : realQuartile t p = some vp)
    (hq : realQuartile t q = some vq) : vp ≤ vq := by
  have hlen : 0 < t.length := List.length_pos.mpr hne
  have hq0 : 0 ≤ q := le_trans h0 hpq
  have hget0 : t[0]? = some (t.getD 0 0) := by
    rw [List.getElem?_eq_getElem hlen, List.getD_eq_getElem _ _ hlen]
  have hll : t.length - 1 < t.length := by omega
  have hgetl : t[t.length - 1]? = some (t.getD (t.length - 1) 0) := by
    rw [List.getElem?_eq_getElem hll, List.getD_eq_getElem _ _ hll]
  have hAle : p * ((t.length + 1 : ℕ) : ℚ) / 4 ≤
      q * ((t.length + 1 : ℕ) : ℚ) / 4 := by
    apply (div_le_div_right (by norm_num : (0:ℚ) < 4)).mpr
    exact mul_le_mul_of_nonneg_right hpq (by positivity)
  have hKle : (⌊p * ((t.length + 1 : ℕ) : ℚ) / 4⌋).toNat ≤
      (⌊q * ((t.length + 1 : ℕ) : ℚ) / 4⌋).toNat :=
    Int.toNat_le_toNat (Int.floor_mono hAle)
  rcases realQuartile_cases (t := t) (p := p) rfl rfl with
      ⟨hKp, heqp⟩ | ⟨hKp, hclp, heqp⟩ | ⟨hKp, hmidp, heqp⟩
  · -- p takes the first-element branch
    rw [heqp, hget0] at hp
    obtain ⟨v, hv, hlb, _⟩ := realQuartile_isSome_bounds ht hne hq0
    rw [hv] at hq
    rw [← Option.some.inj hp, ← Option.some.inj hq]
    exact hlb
  · -- p takes the clamped last-element branch, hence so does q
    rcases realQuartile_cases (t := t) (p := q) rfl rfl with
        ⟨hKq, heqq⟩ | ⟨hKq, hclq, heqq⟩ | ⟨hKq, hmidq, heqq⟩
    · omega
    · rw [heqp, hgetl] at hp
      rw [heqq, hgetl] at hq
      rw [← Option.some.inj hp, ← Option.some.inj hq]
    · omega
  · rcases realQuartile_cases (t := t) (p := q) rfl rfl with
        ⟨hKq, heqq⟩ | ⟨hKq, hclq, heqq⟩ | ⟨hKq, hmidq, heqq⟩
    · omega
    · -- q clamps to the last element; p is bounded by it
      obtain ⟨v, hv, _, hub⟩ := realQuartile_isSome_bounds ht hne h0
      rw [hv] at hp
      rw [heqq, hgetl] at hq
      rw [← Option.some.inj hp, ← Option.some.inj hq]
      exact hub
    · -- both interpolate
      rw [heqp] at hp
      rw [heqq] at hq
      rw [← Option.some.inj hp, ← Option.some.inj hq]
      set Ap := p * ((t.length + 1 : ℕ) : ℚ) / 4 with hAp
      set Aq := q * ((t.length + 1 : ℕ) : ℚ) / 4 with hAq
      set Kp := (⌊Ap⌋).toNat with hKpd
      set Kq := (⌊Aq⌋).toNat with hKqd
      have hAp0 : 0 ≤ Ap := by rw [hAp]; positivity
      have hAq0 : 0 ≤ Aq := by rw [hAq]; positivity
      have hKpz : (Kp : ℤ) = ⌊Ap⌋ :=
        Int.toNat_of_nonneg (Int.floor_nonneg.mpr hAp0)
      have hKqz : (Kq : ℤ) = ⌊Aq⌋ :=
        Int.toNat_of_nonneg (Int.floor_nonneg.mpr hAq0)
      rcases Nat.lt_or_ge Kp Kq with hlt | hge
      · have habp : t.getD (Kp - 1) 0 ≤ t.getD (Kp - 1 + 1) 0 :=
          sorted_getD_mono ht (Nat.le_succ _) (by omega)
        have habq : t.getD (Kq - 1) 0 ≤ t.getD (Kq - 1 + 1) 0 :=
          sorted_getD_mono ht (Nat.le_succ _) (by omega)
        have hfrp1 : Ap - ((⌊Ap⌋ : ℤ) : ℚ) ≤ 1 := by
          linarith [Int.lt_floor_add_one Ap]
        have hfrq0 : 0 ≤ Aq - ((⌊Aq⌋ : ℤ) : ℚ) := by
          linarith [Int.floor_le Aq]
        calc t.getD (Kp - 1) 0 + (Ap - ((⌊Ap⌋ : ℤ) : ℚ)) *
              (t.getD (Kp - 1 + 1) 0 - t.getD (Kp - 1) 0)
            ≤ t.getD (Kp - 1 + 1) 0 := interp_ub' habp hfrp1
          _ ≤ t.getD (Kq - 1) 0 := sorted_getD_mono ht (by omega) (by omega)
          _ ≤ _ := interp_lb' habq hfrq0
      · have hKeq : Kp = Kq := le_antisymm hKle hge
        have hfl : ⌊Ap⌋ = ⌊Aq⌋ := by omega
        have hfr : Ap - ((⌊Ap⌋ : ℤ) : ℚ) ≤ Aq - ((⌊Aq⌋ : ℤ) : ℚ) := by
          rw [hfl]; linarith
        have hab : t.getD (Kp - 1) 0 ≤ t.getD (Kp - 1 + 1) 0 :=
          sorted_getD_mono ht (Nat.le_succ _) (by omega)
        rw [← hKeq, ← hfl]
        nlinarith [hfr, hab]

lemma realQuartile_at_zero {t : List ℚ} (hne : t ≠ []) :
    realQuartile t 0 = some (t.getD 0 0) := by
  have hlen : 0 < t.length := List.length_pos.mpr hne
  have hget0 : t[0]? = some (t.getD 0 0) := by
    rw [List.getElem?_eq_getElem hlen, List.getD_eq_getElem _ _ hlen]
  rcases realQuartile_cases (t := t) (p := (0:ℚ)) rfl rfl with
      ⟨_, heq⟩ | ⟨hK0, _, _⟩ | ⟨hK0, _, _⟩
  · exact heq.trans hget0
  · exact absurd (by norm_num) hK0
  · exact absurd (by norm_num) hK0

lemma realQuartile_at_four {t : List ℚ} (hne : t ≠ []) :
    realQuartile t 4 = some (t.getD (t.length - 1) 0) := by
  have hlen : 0 < t.length := List.length_pos.mpr hne
  have hll : t.length - 1 < t.length := by omega
  have hgetl : t[t.length - 1]? = some (t.getD (t.length - 1) 0) := by
    rw [List.getElem?_eq_getElem hll, List.getD_eq_getElem _ _ hll]
  have hKval : (⌊(4:ℚ) * ((t.length + 1 : ℕ) : ℚ) / 4⌋).toNat =
      t.length + 1 := by
    have h4 : (4:ℚ) * ((t.length + 1 : ℕ) : ℚ) / 4 =
        ((t.length + 1 : ℕ) : ℚ) := by ring
    rw [h4, Int.floor_natCast]
    omega
  rcases realQuartile_cases (t := t) (p := (4:ℚ)) rfl rfl with
      ⟨hK0, _⟩ | ⟨_, _, heq⟩ | ⟨_, hmid, _⟩
  · omega
  · exact heq.trans hgetl
  · omega

lemma realQuartile_singleton (v p : ℚ) : realQuartile [v] p = some v := by
  rcases realQuartile_cases (t := [v]) (p := p) rfl rfl with
      ⟨_, heq⟩ | ⟨_, _, heq⟩ | ⟨_, hmid, _⟩
  · exact heq
  · exact heq
  · simp only [List.length_singleton] at hmid
    omega

lemma percentile_of_sorted_50 {t : List ℚ} (h1 : 1 ≤ t.length) :
    percentile_of_sorted t 50 = some (midValue t) := by
  by_cases hL1 : t.length = 1
  · rw [percentile_of_sorted_length_one hL1, midValue, hL1]
    norm_num
  · have h2 : 2 ≤ t.length := by omega
    have hne : ¬ |(50:ℚ) - 100| < f64Epsilon := by norm_num [f64Epsilon]
    rcases Nat.even_or_odd t.length with he | ho
    · obtain ⟨m, hm⟩ := he
      have hm1 : 1 ≤ m := by omega
      have hrv : (50:ℚ) / 100 * ((t.length - 1 : ℕ) : ℚ) =
          (m : ℚ) - 1/2 := by
        have hs : (t.length - 1 : ℕ) = 2 * m - 1 := by omega
        rw [hs, Nat.cast_sub (by omega)]
        push_cast
        ring
      have hnv : m - 1 = (⌊(m : ℚ) - 1/2⌋).toNat := by
        have hfl : ⌊(m : ℚ) - 1/2⌋ = (m : ℤ) - 1 := by
          rw [Int.floor_eq_iff]
          constructor <;> push_cast <;> linarith
        rw [hfl]
        omega
      obtain ⟨_, _, _, heq⟩ :=
        percentile_of_sorted_interp h2 (by norm_num) (by norm_num) hne
          hrv.symm hnv
      rw [heq, midValue, if_neg (by omega)]
      have hdv : t.length / 2 = m := by omega
      have hmm : m - 1 + 1 = m := by omega
      have hc : ((m - 1 : ℕ) : ℚ) = (m : ℚ) - 1 := by
        rw [Nat.cast_sub (by omega)]; norm_num
      rw [hdv, hmm, hc]
      congr 1
      ring
    · obtain ⟨m, hm⟩ := ho
      have hm1 : 1 ≤ m := by omega
      have hrv : (50:ℚ) / 100 * ((t.length - 1 : ℕ) : ℚ) = (m : ℚ) := by
        have hs : (t.length - 1 : ℕ) = 2 * m := by omega
        rw [hs]
        push_cast
        ring
      have hnv : m = (⌊(m : ℚ)⌋).toNat := by
        rw [Int.floor_natCast]; omega
      obtain ⟨_, _, _, heq⟩ :=
        percentile_of_sorted_interp h2 (by norm_num) (by norm_num) hne
          hrv.symm hnv
      rw [heq, midValue, if_pos (by omega)]
      have hdv : t.length / 2 = m := by omega
      rw [hdv]
      congr 1
      ring

lemma realQuartile_at_two {t : List ℚ} (h1 : 1 ≤ t.length) :
    realQuartile t 2 = some (midValue t) := by
  by_cases hL1 : t.length = 1
  · rcases t with _ | ⟨v, u⟩
    · simp at hL1
    · have hu : u = [] := by simpa using hL1
      subst hu
      rw [realQuartile_singleton, midValue]
      norm_num
  · have h2 : 2 ≤ t.length := by omega
    rcases Nat.even_or_odd t.length with he | ho
    · obtain ⟨m, hm⟩ := he
      have hm1 : 1 ≤ m := by omega
      have hAv : ((m : ℚ) + 1/2) = (2:ℚ) * ((t.length + 1 : ℕ) : ℚ) / 4 := by
        rw [hm]
        push_cast
        ring
      have hKv : m = (⌊(m : ℚ) + 1/2⌋).toNat := by
        have hfl : ⌊(m : ℚ) + 1/2⌋ = (m : ℤ) := by
          rw [Int.floor_eq_iff]
          constructor <;> push_cast <;> linarith
        rw [hfl]
        omega
      rcases realQuartile_cases hAv hKv with
          ⟨hK0, _⟩ | ⟨_, hcl, _⟩ | ⟨_, _, heq⟩
      · omega
      · omega
      · rw [heq, midValue, if_neg (by omega)]
        have hfl : ⌊(m : ℚ) + 1/2⌋ = (m : ℤ) := by
          rw [Int.floor_eq_iff]
          constructor <;> push_cast <;> linarith
        have hdv : t.length / 2 = m := by omega
        have hmm : m - 1 + 1 = m := by omega
        rw [hfl, hdv, hmm]
        congr 1
        push_cast
        ring
    · obtain ⟨m, hm⟩ := ho
      have hm1 : 1 ≤ m := by omega
      have hAv : (((m + 1 : ℕ)) : ℚ) = (2:ℚ) * ((t.length + 1 : ℕ) : ℚ) / 4 := by
        rw [hm]
        push_cast
        ring
      have hKv : m + 1 = (⌊((m + 1 : ℕ) : ℚ)⌋).toNat := by
        rw [Int.floor_natCast]
        omega
      rcases realQuartile_cases hAv hKv with
          ⟨hK0, _⟩ | ⟨_, hcl, _⟩ | ⟨_, _, heq⟩
      · omega
      · omega
      · rw [heq, midValue, if_pos (by omega)]
        rw [Int.floor_natCast]
        have hdv : t.length / 2 = m := by omega
        have hmm : m + 1 - 1 = m := by omega
        rw [hdv, hmm]
        push_cast
        ring_nf

/-! ### Constructor lemmas for the three policies -/

lemma Quartiles.new_eq {s : List ℚ} {lo me up : ℚ}
    (h25 : percentile_of_sorted (sortList s) 25 = some lo)
    (h50 : percentile_of_sorted (sortList s) 50 = some me)
    (h75 : percentile_of_sorted (sortList s) 75 = some up) :
    Quartiles.new s =
      some ⟨lo - 1.5 * (up - lo), lo, me, up, up + 1.5 * (up - lo)⟩ := by
  rw [Quartiles.new]
  rw [h25, h50, h75]

lemma Quartiles.real_eq {s : List ℚ} {q0 q1 q2 q3 q4 : ℚ}
    (h0 : realQuartile (sortList s) 0 = some q0)
    (h1 : realQuartile (sortList s) 1 = some q1)
    (h2 : realQuartile (sortList s) 2 = some q2)
    (h3 : realQuartile (sortList s) 3 = some q3)
    (h4 : realQuartile (sortList s) 4 = some q4) :
    Quartiles.real s = some ⟨q0, q1, q2, q3, q4⟩ := by
  rw [Quartiles.real]
  rw [h0, h1, h2, h3, h4]

lemma Quartiles.fair_eq {s : List ℚ} {q0 q1 q2 q3 q4 : ℚ}
    (h1 : realQuartile (sortList s) 1 = some q1)
    (h2 : realQuartile (sortList s) 2 = some q2)
    (h3 : realQuartile (sortList s) 3 = some q3)
    (h0 : realQuartile (sortList s) 0 = some q0)
    (h4 : realQuartile (sortList s) 4 = some q4) :
    Quartiles.fair s =
      some ⟨max (q1 - 1.5 * (q3 - q1)) q0, q1, q2, q3,
        min (q3 + 1.5 * (q3 - q1)) q4⟩ := by
  rw [Quartiles.fair]
  rw [h1, h2, h3, h0, h4]

/-! ### Claim theorems -/

/-- C2: Policy A worked examples: `Quartiles::new(&[10, 20]).values()` equals
`[5.0, 12.5, 15.0, 17.5, 25.0]`; `Quartiles::new(&[10, 20, 30]).values()`
equals `[0.0, 15.0, 20.0, 25.0, 40.0]`;
`Quartiles::new(&[7, 15, 36, 39, 40, 41]).values()` equals
`[-9.0, 20.25, 37.5, 39.75, 69.0]` and its `median()` equals `37.5`. -/
theorem C2_policy_A_worked_examples :
    (Quartiles.new [10, 20]).map Quartiles.values
        = some [5, 12.5, 15, 17.5, 25] ∧
    (Quartiles.new [10, 20, 30]).map Quartiles.values
        = some [0, 15, 20, 25, 40] ∧
    (Quartiles.new [7, 15, 36, 39, 40, 41]).map Quartiles.values
        = some [-9, 20.25, 37.5, 39.75, 69] ∧
    (Quartiles.new [7, 15, 36, 39, 40, 41]).map Quartiles.median
        = some 37.5 := by
  refine ⟨?_, ?_, ?_, ?_⟩
  · norm_num [Quartiles.new, Quartiles.values, percentile_of_sorted,
      sortList, f64Epsilon, Int.toNat]
  · norm_num [Quartiles.new, Quartiles.values, percentile_of_sorted,
      sortList, f64Epsilon, Int.toNat]
  · norm_num [Quartiles.new, Quartiles.values, percentile_of_sorted,
      sortList, f64Epsilon, Int.toNat]
  · norm_num [Quartiles.new, Quartiles.median, percentile_of_sorted,
      sortList, f64Epsilon, Int.toNat]

/-- C3: Policy B worked examples: `Quartiles::real(&[10, 20, 30, 40]).values()`
equals `[10.0, 12.5, 25.0, 37.5, 40.0]`;
`Quartiles::real(&[7, 15, 36, 39, 40, 41]).values()` equals
`[7.0, 13.0, 37.5, 40.25, 41.0]`;
`Quartiles::real(&[6, 7, 15, 36, 39, 40, 41, 42, 43, 47, 49]).values()`
equals `[6.0, 15.0, 40.0, 43.0, 49.0]`. -/
theorem C3_policy_B_worked_examples :
    (Quartiles.real [10, 20, 30, 40]).map Quartiles.values
        = some [10, 12.5, 25, 37.5, 40] ∧
    (Quartiles.real [7, 15, 36, 39, 40, 41]).map Quartiles.values
        = some [7, 13, 37.5, 40.25, 41] ∧
    (Quartiles.real [6, 7, 15, 36, 39, 40, 41, 42, 43, 47, 49]).map
        Quartiles.values = some [6, 15, 40, 43, 49] := by
  refine ⟨?_, ?_, ?_⟩
  · norm_num [Quartiles.real, Quartiles.values, realQuartile, sortList,
      Int.toNat]
  · have hs : sortList [7, 15, 36, 39, 40, 41] = [7, 15, 36, 39, 40, 41] := by
      norm_num [sortList]
    have h0 : realQuartile (sortList [7, 15, 36, 39, 40, 41]) 0 = some 7 := by
      rw [hs]; norm_num [realQuartile, Int.toNat]
    have h1 : realQuartile (sortList [7, 15, 36, 39, 40, 41]) 1 = some 13 := by
      rw [hs]; norm_num [realQuartile, Int.toNat]
    have h2 : realQuartile (sortList [7, 15, 36, 39, 40, 41]) 2
        = some 37.5 := by
      rw [hs]; norm_num [realQuartile, Int.toNat]
    have h3 : realQuartile (sortList [7, 15, 36, 39, 40, 41]) 3
        = some 40.25 := by
      rw [hs]; norm_num [realQuartile, Int.toNat]
    have h4 : realQuartile (sortList [7, 15, 36, 39, 40, 41]) 4 = some 41 := by
      rw [hs]; norm_num [realQuartile, Int.toNat]
    rw [Quartiles.real_eq h0 h1 h2 h3 h4]
    rfl
  · have hs : sortList [6, 7, 15, 36, 39, 40, 41, 42, 43, 47, 49]
        = [6, 7, 15, 36, 39, 40, 41, 42, 43, 47, 49] := by
      norm_num [sortList]
    have h0 : realQuartile (sortList [6, 7, 15, 36, 39, 40, 41, 42, 43, 47, 49])
        0 = some 6 := by
      rw [hs]; norm_num [realQuartile, Int.toNat]
    have h1 : realQuartile (sortList [6, 7, 15, 36, 39, 40, 41, 42, 43, 47, 49])
        1 = some 15 := by
      rw [hs]; norm_num [realQuartile, Int.toNat]
    have h2 : realQuartile (sortList [6, 7, 15, 36, 39, 40, 41, 42, 43, 47, 49])
        2 = some 40 := by
      rw [hs]; norm_num [realQuartile, Int.toNat]
    have h3 : realQuartile (sortList [6, 7, 15, 36, 39, 40, 41, 42, 43, 47, 49])
        3 = some 43 := by
      rw [hs]; norm_num [realQuartile, Int.toNat]
    have h4 : realQuartile (sortList [6, 7, 15, 36, 39, 40, 41, 42, 43, 47, 49])
        4 = some 49 := by
      rw [hs]; norm_num [realQuartile, Int.toNat]
    rw [Quartiles.real_eq h0 h1 h2 h3 h4]
    rfl

/-- C6: Invoking any of the three policies on an empty sample fails fast
(embedded as `none`) rather than returning any default or zeroed summary. -/
theorem C6_empty_sample_fails_fast :
    Quartiles.new ([] : List ℚ) = none ∧
    Quartiles.real ([] : List ℚ) = none ∧
    Quartiles.fair ([] : List ℚ) = none := by
  have hs : sortList [] = [] := rfl
  have hp : ∀ p : ℚ, percentile_of_sorted [] p = none := by
    intro p; norm_num [percentile_of_sorted]
  have h0 : realQuartile [] 0 = none := by norm_num [realQuartile, Int.toNat]
  have h1 : realQuartile [] 1 = none := by norm_num [realQuartile, Int.toNat]
  have h2 : realQuartile [] 2 = none := by norm_num [realQuartile, Int.toNat]
  have h3 : realQuartile [] 3 = none := by norm_num [realQuartile, Int.toNat]
  have h4 : realQuartile [] 4 = none := by norm_num [realQuartile, Int.toNat]
  refine ⟨?_, ?_, ?_⟩
  · rw [Quartiles.new]
    rw [hs, hp, hp, hp]
  · simp only [Quartiles.real, hs, h0, h1, h2, h3, h4]
  · simp only [Quartiles.fair, hs, h0, h1, h2, h3, h4]

/-- C7 counterexample: the claim says the out-of-range percentile check fires
for every non-empty input including single-element sequences, but
`percentile_of_sorted([1], 200)` returns the element instead of failing:
the length-1 early return precedes the range asserts. -/
theorem C7_counterexample :
    percentile_of_sorted [1] 200 = some 1 ∧
    ¬ percentile_of_sorted [1] 200 = none := by
  have h : percentile_of_sorted [1] 200 = some 1 := by
    norm_num [percentile_of_sorted]
  refine ⟨h, ?_⟩
  rw [h]
  exact fun hc => Option.noConfusion hc

/-- C7 amended: for every sorted sequence of length at least 2 and every
percentile outside `[0, 100]`, `percentile_of_sorted` fails fast; on a
single-element sequence it returns that element for any percentile, in
range or not, because the length-1 early return precedes the range
asserts. -/
theorem C7_range_check_fires_iff_length_ge_two (s : List ℚ) (p : ℚ) :
    (2 ≤ s.length → (p < 0 ∨ 100 < p) → percentile_of_sorted s p = none) ∧
    (∀ v : ℚ, percentile_of_sorted [v] p = some v) := by
  constructor
  · intro h2 hout
    have hemp : ¬ s.isEmpty = true := by
      simp only [List.isEmpty_iff]
      intro h
      rw [h] at h2
      simp at h2
    have hl1 : ¬ s.length = 1 := by omega
    rw [percentile_of_sorted, if_neg hemp, if_neg hl1]
    rcases hout with hlt | hgt
    · rw [if_pos (not_le.mpr hlt)]
    · rw [if_neg (by push_neg; linarith), if_pos (not_le.mpr hgt)]
  · intro v
    rw [percentile_of_sorted_length_one (t := [v]) rfl]
    rfl

/-- C7 witness: the amended claim at concrete inputs. -/
theorem C7_witness :
    percentile_of_sorted [1, 2] 200 = none ∧
    percentile_of_sorted [5] 200 = some 5 :=
  ⟨(C7_range_check_fires_iff_length_ge_two [1, 2] 200).1 (by norm_num)
      (Or.inr (by norm_num)),
    (C7_range_check_fires_iff_length_ge_two [5] 200).2 5⟩

/-- C8: `Quartiles::new` is order-invariant: applying it to any permutation
of a sample yields the same five-value summary. -/
theorem C8_new_perm_invariant (s u : List ℚ) (h : List.Perm s u) :
    Quartiles.new s = Quartiles.new u := by
  simp only [Quartiles.new]
  rw [sortList_eq_of_perm h]

/-- C8 witness: the theorem at a concrete permutation. -/
theorem C8_witness : Quartiles.new [10, 20] = Quartiles.new [20, 10] :=
  C8_new_perm_invariant [10, 20] [20, 10] (List.Perm.swap 20 10 [])

/-- C10: `Quartiles::real` and `Quartiles::fair` are also order-invariant:
applying either to any permutation of a sample yields the same
five-value summary. -/
theorem C10_real_fair_perm_invariant (s u : List ℚ) (h : List.Perm s u) :
    Quartiles.real s = Quartiles.real u ∧
    Quartiles.fair s = Quartiles.fair u := by
  constructor
  · simp only [Quartiles.real]
    rw [sortList_eq_of_perm h]
  · simp only [Quartiles.fair]
    rw [sortList_eq_of_perm h]

/-- C10 witness: the theorem at a concrete permutation. -/
theorem C10_witness :
    Quartiles.real [10, 20] = Quartiles.real [20, 10] ∧
    Quartiles.fair [10, 20] = Quartiles.fair [20, 10] :=
  C10_real_fair_perm_invariant [10, 20] [20, 10] (List.Perm.swap 20 10 [])

/-- C5: for every single-element sample `[v]`, each of the three policies
returns the summary `[v, v, v, v, v]`. -/
theorem C5_singleton_summary (v : ℚ) :
    (Quartiles.new [v]).map Quartiles.values = some [v, v, v, v, v] ∧
    (Quartiles.real [v]).map Quartiles.values = some [v, v, v, v, v] ∧
    (Quartiles.fair [v]).map Quartiles.values = some [v, v, v, v, v] := by
  have hs : sortList [v] = [v] := rfl
  have hp : ∀ p : ℚ, percentile_of_sorted (sortList [v]) p = some v := by
    intro p
    rw [hs, percentile_of_sorted_length_one (t := [v]) rfl]
    rfl
  have hq : ∀ p : ℚ, realQuartile (sortList [v]) p = some v := by
    intro p
    rw [hs, realQuartile_singleton]
  have hv : v - 1.5 * (v - v) = v := by ring
  have hv' : v + 1.5 * (v - v) = v := by ring
  refine ⟨?_, ?_, ?_⟩
  · rw [Quartiles.new_eq (hp 25) (hp 50) (hp 75)]
    simp only [Option.map_some', Quartiles.values, hv, hv']
  · rw [Quartiles.real_eq (hq 0) (hq 1) (hq 2) (hq 3) (hq 4)]
    rfl
  · rw [Quartiles.fair_eq (hq 1) (hq 2) (hq 3) (hq 0) (hq 4)]
    simp only [Option.map_some', Quartiles.values, hv, hv', max_self, min_self]

/-- C5 witness: the theorem at the concrete value `15`. -/
theorem C5_witness :
    (Quartiles.new [15]).map Quartiles.values = some [15, 15, 15, 15, 15] ∧
    (Quartiles.real [15]).map Quartiles.values = some [15, 15, 15, 15, 15] ∧
    (Quartiles.fair [15]).map Quartiles.values = some [15, 15, 15, 15, 15] :=
  C5_singleton_summary 15

/-- C1: for every non-empty sample of mutually comparable values, the summary
produced by each of the three policies (`new`, `real`, `fair`) satisfies
lower_fence ≤ lower ≤ median ≤ upper ≤ upper_fence. -/
theorem C1_summary_monotone (s : List ℚ) (hs : s ≠ []) :
    (∃ q, Quartiles.new s = some q ∧ q.lower_fence ≤ q.lower ∧
      q.lower ≤ q.median ∧ q.median ≤ q.upper ∧ q.upper ≤ q.upper_fence) ∧
    (∃ q, Quartiles.real s = some q ∧ q.lower_fence ≤ q.lower ∧
      q.lower ≤ q.median ∧ q.median ≤ q.upper ∧ q.upper ≤ q.upper_fence) ∧
    (∃ q, Quartiles.fair s = some q ∧ q.lower_fence ≤ q.lower ∧
      q.lower ≤ q.median ∧ q.median ≤ q.upper ∧ q.upper ≤ q.upper_fence) := by
  have ht : (sortList s).Sorted (· ≤ ·) := sortList_sorted s
  have htne : sortList s ≠ [] := by
    intro h
    apply hs
    have hl := sortList_length s
    rw [h] at hl
    exact List.length_eq_zero.mp hl.symm
  refine ⟨?_, ?_, ?_⟩
  · obtain ⟨v25, h25, _, _⟩ :=
      percentile_of_sorted_isSome_bounds ht htne
        (by norm_num : (0:ℚ) ≤ 25) (by norm_num)
    obtain ⟨v50, h50, _, _⟩ :=
      percentile_of_sorted_isSome_bounds ht htne
        (by norm_num : (0:ℚ) ≤ 50) (by norm_num)
    obtain ⟨v75, h75, _, _⟩ :=
      percentile_of_sorted_isSome_bounds ht htne
        (by norm_num : (0:ℚ) ≤ 75) (by norm_num)
    have h2550 : v25 ≤ v50 :=
      percentile_of_sorted_mono ht (by norm_num) (by norm_num) (by norm_num)
        h25 h50
    have h5075 : v50 ≤ v75 :=
      percentile_of_sorted_mono ht (by norm_num) (by norm_num) (by norm_num)
        h50 h75
    exact ⟨_, Quartiles.new_eq h25 h50 h75, by dsimp only; linarith,
      h2550, h5075, by dsimp only; linarith⟩
  · obtain ⟨v0, h0, _, _⟩ :=
      realQuartile_isSome_bounds ht htne (by norm_num : (0:ℚ) ≤ 0)
    obtain ⟨v1, h1, _, _⟩ :=
      realQuartile_isSome_bounds ht htne (by norm_num : (0:ℚ) ≤ 1)
    obtain ⟨v2, h2, _, _⟩ :=
      realQuartile_isSome_bounds ht htne (by norm_num : (0:ℚ) ≤ 2)
    obtain ⟨v3, h3, _, _⟩ :=
      realQuartile_isSome_bounds ht htne (by norm_num : (0:ℚ) ≤ 3)
    obtain ⟨v4, h4, _, _⟩ :=
      realQuartile_isSome_bounds ht htne (by norm_num : (0:ℚ) ≤ 4)
    have h01 : v0 ≤ v1 :=
      realQuartile_mono ht htne (by norm_num) (by norm_num) h0 h1
    have h12 : v1 ≤ v2 :=
      realQuartile_mono ht htne (by norm_num) (by norm_num) h1 h2
    have h23 : v2 ≤ v3 :=
      realQuartile_mono ht htne (by norm_num) (by norm_num) h2 h3
    have h34 : v3 ≤ v4 :=
      realQuartile_mono ht htne (by norm_num) (by norm_num) h3 h4
    exact ⟨_, Quartiles.real_eq h0 h1 h2 h3 h4, h01, h12, h23, h34⟩
  · obtain ⟨v1, h1, hb1, _⟩ :=
      realQuartile_isSome_bounds ht htne (by norm_num : (0:ℚ) ≤ 1)
    obtain ⟨v2, h2, _, _⟩ :=
      realQuartile_isSome_bounds ht htne (by norm_num : (0:ℚ) ≤ 2)
    obtain ⟨v3, h3, _, hb3⟩ :=
      realQuartile_isSome_bounds ht htne (by norm_num : (0:ℚ) ≤ 3)
    have h12 : v1 ≤ v2 :=
      realQuartile_mono ht htne (by norm_num) (by norm_num) h1 h2
    have h23 : v2 ≤ v3 :=
      realQuartile_mono ht htne (by norm_num) (by norm_num) h2 h3
    refine ⟨_, Quartiles.fair_eq h1 h2 h3 (realQuartile_at_zero htne)
      (realQuartile_at_four htne), ?_, h12, h23, ?_⟩
    · dsimp only
      exact max_le (by linarith) hb1
    · dsimp only
      exact le_min (by linarith) hb3

/-- C1 witness: the theorem at the concrete sample `[10, 20]`. -/
theorem C1_witness :
    (∃ q, Quartiles.new [10, 20] = some q ∧ q.lower_fence ≤ q.lower ∧
      q.lower ≤ q.median ∧ q.median ≤ q.upper ∧ q.upper ≤ q.upper_fence) ∧
    (∃ q, Quartiles.real [10, 20] = some q ∧ q.lower_fence ≤ q.lower ∧
      q.lower ≤ q.median ∧ q.median ≤ q.upper ∧ q.upper ≤ q.upper_fence) ∧
    (∃ q, Quartiles.fair [10, 20] = some q ∧ q.lower_fence ≤ q.lower ∧
      q.lower ≤ q.median ∧ q.median ≤ q.upper ∧ q.upper ≤ q.upper_fence) :=
  C1_summary_monotone [10, 20] (List.cons_ne_nil 10 [20])

/-- C4: for every sample of size ≥ 2, `Quartiles::fair` produces
lower_fence = max(lower − 1.5×iqr, sample minimum) and
upper_fence = min(upper + 1.5×iqr, sample maximum), where lower and upper
are the Policy-B (`real`) quartiles; consequently both fences lie within
[sample_min, sample_max]. -/
theorem C4_fair_fences_clamped (s : List ℚ) (h2 : 2 ≤ s.length) :
    ∃ q qr m M, Quartiles.fair s = some q ∧ Quartiles.real s = some qr ∧
      qr.lower = q.lower ∧ qr.upper = q.upper ∧
      m ∈ s ∧ (∀ x ∈ s, m ≤ x) ∧ M ∈ s ∧ (∀ x ∈ s, x ≤ M) ∧
      q.lower_fence = max (q.lower - 1.5 * (q.upper - q.lower)) m ∧
      q.upper_fence = min (q.upper + 1.5 * (q.upper - q.lower)) M ∧
      m ≤ q.lower_fence ∧ q.lower_fence ≤ M ∧
      m ≤ q.upper_fence ∧ q.upper_fence ≤ M := by
  have ht : (sortList s).Sorted (· ≤ ·) := sortList_sorted s
  have hlen : (sortList s).length = s.length := sortList_length s
  have htne : sortList s ≠ [] := by
    intro h
    rw [h] at hlen
    simp at hlen
    omega
  have hpos : 0 < (sortList s).length := by omega
  have hlast : (sortList s).length - 1 < (sortList s).length := by omega
  have hmem0 : (sortList s).getD 0 0 ∈ s := by
    rw [← (sortList_perm s).mem_iff, List.getD_eq_getElem _ _ hpos]
    exact List.getElem_mem hpos
  have hmeml : (sortList s).getD ((sortList s).length - 1) 0 ∈ s := by
    rw [← (sortList_perm s).mem_iff, List.getD_eq_getElem _ _ hlast]
    exact List.getElem_mem hlast
  obtain ⟨v1, h1, hb1, _⟩ :=
    realQuartile_isSome_bounds ht htne (by norm_num : (0:ℚ) ≤ 1)
  obtain ⟨v2, h2', _, _⟩ :=
    realQuartile_isSome_bounds ht htne (by norm_num : (0:ℚ) ≤ 2)
  obtain ⟨v3, h3, hb3l, hb3⟩ :=
    realQuartile_isSome_bounds ht htne (by norm_num : (0:ℚ) ≤ 3)
  have h13 : v1 ≤ v3 :=
    realQuartile_mono ht htne (by norm_num) (by norm_num) h1 h3
  have h0l : (sortList s).getD 0 0 ≤ (sortList s).getD
      ((sortList s).length - 1) 0 :=
    sorted_getD_mono ht (Nat.zero_le _) hlast
  refine ⟨_, _, (sortList s).getD 0 0,
    (sortList s).getD ((sortList s).length - 1) 0,
    Quartiles.fair_eq h1 h2' h3 (realQuartile_at_zero htne)
      (realQuartile_at_four htne),
    Quartiles.real_eq (realQuartile_at_zero htne) h1 h2' h3
      (realQuartile_at_four htne),
    rfl, rfl, hmem0, ?_, hmeml, ?_, rfl, rfl, ?_, ?_, ?_, ?_⟩
  · intro x hx
    exact getD_le_of_mem ht ((sortList_perm s).mem_iff.mpr hx)
  · intro x hx
    exact le_getD_last_of_mem ht ((sortList_perm s).mem_iff.mpr hx)
  · exact le_max_right _ _
  · dsimp only
    exact max_le (by linarith) h0l
  · dsimp only
    exact le_min (by linarith) h0l
  · exact min_le_right _ _

/-- C4 witness: the theorem at the concrete sample `[10, 20]`. -/
theorem C4_witness :
    ∃ q qr m M, Quartiles.fair [10, 20] = some q ∧
      Quartiles.real [10, 20] = some qr ∧
      qr.lower = q.lower ∧ qr.upper = q.upper ∧
      m ∈ [(10:ℚ), 20] ∧ (∀ x ∈ [(10:ℚ), 20], m ≤ x) ∧
      M ∈ [(10:ℚ), 20] ∧ (∀ x ∈ [(10:ℚ), 20], x ≤ M) ∧
      q.lower_fence = max (q.lower - 1.5 * (q.upper - q.lower)) m ∧
      q.upper_fence = min (q.upper + 1.5 * (q.upper - q.lower)) M ∧
      m ≤ q.lower_fence ∧ q.lower_fence ≤ M ∧
      m ≤ q.upper_fence ∧ q.upper_fence ≤ M :=
  C4_fair_fences_clamped [10, 20] (by norm_num)

/-- C9: for every non-empty sample, all three policies compute the identical
median, and this common value is the middle element of the sorted sample
for odd length and the midpoint of the two middle elements for even
length. -/
theorem C9_medians_agree (s : List ℚ) (hs : s ≠ []) :
    (Quartiles.new s).map Quartiles.median = some (midValue (sortList s)) ∧
    (Quartiles.real s).map Quartiles.median = some (midValue (sortList s)) ∧
    (Quartiles.fair s).map Quartiles.median = some (midValue (sortList s)) := by
  have ht : (sortList s).Sorted (· ≤ ·) := sortList_sorted s
  have htne : sortList s ≠ [] := by
    intro h
    apply hs
    have hl := sortList_length s
    rw [h] at hl
    exact List.length_eq_zero.mp hl.symm
  have h1len : 1 ≤ (sortList s).length := by
    have := List.length_pos.mpr htne
    omega
  obtain ⟨v25, h25, _, _⟩ :=
    percentile_of_sorted_isSome_bounds ht htne
      (by norm_num : (0:ℚ) ≤ 25) (by norm_num)
  obtain ⟨v75, h75, _, _⟩ :=
    percentile_of_sorted_isSome_bounds ht htne
      (by norm_num : (0:ℚ) ≤ 75) (by norm_num)
  obtain ⟨v1, h1, _, _⟩ :=
    realQuartile_isSome_bounds ht htne (by norm_num : (0:ℚ) ≤ 1)
  obtain ⟨v3, h3, _, _⟩ :=
    realQuartile_isSome_bounds ht htne (by norm_num : (0:ℚ) ≤ 3)
  refine ⟨?_, ?_, ?_⟩
  · rw [Quartiles.new_eq h25 (percentile_of_sorted_50 h1len) h75]
    rfl
  · rw [Quartiles.real_eq (realQuartile_at_zero htne) h1
      (realQuartile_at_two h1len) h3 (realQuartile_at_four htne)]
    rfl
  · rw [Quartiles.fair_eq h1 (realQuartile_at_two h1len) h3
      (realQuartile_at_zero htne) (realQuartile_at_four htne)]
    rfl

/-- C9 witness: the theorem at the concrete sample `[10, 20]`. -/
theorem C9_witness :
    (Quartiles.new [10, 20]).map Quartiles.median
        = some (midValue (sortList [10, 20])) ∧
    (Quartiles.real [10, 20]).map Quartiles.median
        = some (midValue (sortList [10, 20])) ∧
    (Quartiles.fair [10, 20]).map Quartiles.median
        = some (midValue (sortList [10, 20])) :=
  C9_medians_agree [10, 20] (List.cons_ne_nil 10 [20])

end Plotters
